import Mathlib

/-!
Verification development for the recipe-management backend
(user accounts, owner-scoped recipes with many-to-many tags and
ingredients, nested get-or-create resolution, filtering).

The persistent store is embedded shallowly: a `DB` value holds the rows of
every table, ids are natural numbers, and each operation is a pure function
from a `DB` (plus the acting owner's id and the request payload) to an
updated `DB` together with an `Except`-style outcome.  Rows and payloads
are plain structures; many-to-many relations are lists of ids.
-/

namespace RecipeApp

/-- Outcome taxonomy of the backend's operations (spec section 7):
`validationError` for malformed input, `notFound` uniformly for
"row does not exist" and "row owned by someone else". -/
inductive Err where
  | validationError : Err
  | notFound : Err
deriving DecidableEq, Repr

/-- A Tag row: id, owning user id, free-text name. -/
structure Tag where
  id : Nat
  user : Nat
  name : String
deriving DecidableEq, Repr

/-- An Ingredient row: identical shape to `Tag`, independent table. -/
structure Ingredient where
  id : Nat
  user : Nat
  name : String
deriving DecidableEq, Repr

/-- A Recipe row: scalar attributes plus many-to-many id lists to tags and
ingredients.  `price` is modelled in integer cents. -/
structure Recipe where
  id : Nat
  user : Nat
  title : String
  description : String
  timeMinutes : Nat
  price : Nat
  link : String
  tags : List Nat
  ingredients : List Nat
deriving DecidableEq, Repr

/-- A partial-update payload for a recipe.  `none` means the key is absent
from the payload.  `tags` / `ingredients` carry lists of names, as the
nested `{name}` descriptors do.  `user` models an `owner` value smuggled
into the payload. -/
structure RecipePayload where
  title : Option String
  description : Option String
  timeMinutes : Option Nat
  price : Option Nat
  link : Option String
  user : Option Nat
  tags : Option (List String)
  ingredients : Option (List String)
deriving DecidableEq, Repr

/-- The recipe-side database: one list of rows per table plus fresh-id
counters. -/
structure DB where
  tags : List Tag
  ingredients : List Ingredient
  recipes : List Recipe
  nextTagId : Nat
  nextIngredientId : Nat
  nextRecipeId : Nat
deriving DecidableEq, Repr

/-- The lookup predicate of tag get-or-create: exact name match AND exact
owner match. -/
def tagKey (owner : Nat) (n : String) : Tag → Bool :=
  fun t => t.user == owner && t.name == n

/-- The lookup predicate of ingredient get-or-create, symmetric to
`tagKey`. -/
def ingredientKey (owner : Nat) (n : String) : Ingredient → Bool :=
  fun t => t.user == owner && t.name == n

/-- The single ownership-scoped recipe lookup predicate: id match AND
owner match in one query, so nonexistence and foreign ownership are the
same code path. -/
def recipeKey (rid owner : Nat) : Recipe → Bool :=
  fun r => r.id == rid && r.user == owner

/-- Ownership-scoped lookup of a tag by id, as used by the standalone tag
detail endpoints. -/
def tagIdKey (tid owner : Nat) : Tag → Bool :=
  fun t => t.id == tid && t.user == owner

/-- Modelled from the spec: the missing `recipe/serializers.py` resolves one
`{name}` tag descriptor by "get-or-create by name, owner-scoped" (spec
section 4.2): look up an existing row with matching name AND matching
owner; if found reuse it, otherwise create a new row with that name under
that owner.  Returns the updated database and the resolved tag id. -/
def resolveTag (db : DB) (owner : Nat) (name : String) : DB × Nat :=
  match db.tags.find? (tagKey owner name) with
  | some t => (db, t.id)
  | none =>
    ({ db with
        tags := db.tags ++ [⟨db.nextTagId, owner, name⟩],
        nextTagId := db.nextTagId + 1 },
     db.nextTagId)

/-- Modelled from the spec: resolution of a whole list of tag descriptors,
left to right, threading the database through (spec section 4.2). -/
def resolveTagList (db : DB) (owner : Nat) : List String → DB × List Nat
  | [] => (db, [])
  | n :: ns =>
    let s := resolveTag db owner n
    let rest := resolveTagList s.1 owner ns
    (rest.1, s.2 :: rest.2)

/-- Modelled from the spec: ingredient descriptor resolution, symmetric to
`resolveTag` on the independent ingredient table (spec section 4.2). -/
def resolveIngredient (db : DB) (owner : Nat) (name : String) : DB × Nat :=
  match db.ingredients.find? (ingredientKey owner name) with
  | some t => (db, t.id)
  | none =>
    ({ db with
        ingredients := db.ingredients ++ [⟨db.nextIngredientId, owner, name⟩],
        nextIngredientId := db.nextIngredientId + 1 },
     db.nextIngredientId)

/-- Modelled from the spec: list version of `resolveIngredient`. -/
def resolveIngredientList (db : DB) (owner : Nat) : List String → DB × List Nat
  | [] => (db, [])
  | n :: ns =>
    let s := resolveIngredient db owner n
    let rest := resolveIngredientList s.1 owner ns
    (rest.1, s.2 :: rest.2)

/-- Modelled from the spec: ownership-scoped single-row read — a single
query predicate combining id-match and owner-match, so "not found" and
"not owned" are the same code path (spec sections 4.4 and 9). -/
def getRecipe (db : DB) (rid owner : Nat) : Option Recipe :=
  db.recipes.find? (recipeKey rid owner)

/-- Modelled from the spec: the missing recipe list view — all recipes
owned by `owner`, restricted to those whose tag set intersects `tagIds`
(if non-empty) and whose ingredient set intersects `ingredientIds` (if
non-empty); both filters AND-ed (spec section 4.4). -/
def listRecipes (db : DB) (owner : Nat) (tagIds ingredientIds : List Nat) :
    List Recipe :=
  db.recipes.filter (fun r =>
    r.user == owner
    && (tagIds.isEmpty || r.tags.any (fun t => tagIds.contains t))
    && (ingredientIds.isEmpty || r.ingredients.any (fun i => ingredientIds.contains i)))

/-- Apply the scalar part of a partial payload to a recipe row: keys absent
from the payload leave the field untouched.  The payload's `user` field is
deliberately never read (spec section 4.3: any `owner` in the payload is
dropped before applying). -/
def applyScalars (r : Recipe) (p : RecipePayload) : Recipe :=
  { r with
      title := p.title.getD r.title,
      description := p.description.getD r.description,
      timeMinutes := p.timeMinutes.getD r.timeMinutes,
      price := p.price.getD r.price,
      link := p.link.getD r.link }

/-- The tag half of an update: a present `tags` key (even `[]`) resolves
its names and fully replaces the set; an absent key keeps the recipe's
current set and leaves the database alone. -/
def relTags (db : DB) (owner : Nat) (r : Recipe) :
    Option (List String) → DB × List Nat
  | some names => resolveTagList db owner names
  | none => (db, r.tags)

/-- The ingredient half of an update, independent of the tag half. -/
def relIngredients (db : DB) (owner : Nat) (r : Recipe) :
    Option (List String) → DB × List Nat
  | some names => resolveIngredientList db owner names
  | none => (db, r.ingredients)

/-- The row a found recipe becomes under a partial payload: scalars
applied (owner dropped), relation sets replaced or kept per key
presence. -/
def updatedRow (db : DB) (owner : Nat) (p : RecipePayload) (r : Recipe) :
    Recipe :=
  { applyScalars r p with
      tags := (relTags db owner r p.tags).2,
      ingredients :=
        (relIngredients (relTags db owner r p.tags).1 owner r p.ingredients).2 }

/-- The database after the two resolution halves of an update have run. -/
def updateResolvedDB (db : DB) (owner : Nat) (p : RecipePayload) (r : Recipe) :
    DB :=
  (relIngredients (relTags db owner r p.tags).1 owner r p.ingredients).1

/-- The database after only the tag half of an update: resolution of the
payload's tag names when the key is present, the untouched database when
it is absent.  (Unlike `relTags`, this does not depend on the found row:
the row only supplies the kept id list, never the database.) -/
def tagPhaseDB (db : DB) (owner : Nat) : Option (List String) → DB
  | some names => (resolveTagList db owner names).1
  | none => db

/-- Modelled from the spec: the missing recipe update view/serializer
(spec section 4.3).  Only operable if the recipe exists and is owned by
`owner`, else `notFound`.  If the `tags` key is present (even `[]`) the
tag set is fully replaced with the resolved set; same independently for
`ingredients`; absent keys keep the previous relation sets. -/
def updateRecipe (db : DB) (rid owner : Nat) (p : RecipePayload) :
    DB × Except Err Recipe :=
  match db.recipes.find? (recipeKey rid owner) with
  | none => (db, Except.error Err.notFound)
  | some r =>
    ({ updateResolvedDB db owner p r with
        recipes := (updateResolvedDB db owner p r).recipes.map
          (fun x => if x.id == rid then updatedRow db owner p r else x) },
     Except.ok (updatedRow db owner p r))

/-- Modelled from the spec: the missing recipe create path (spec section
4.3): a new recipe owned by `owner` with its relation sets populated via
get-or-create resolution against `owner`. -/
def createRecipe (db : DB) (owner : Nat) (title description : String)
    (timeMinutes price : Nat) (link : String)
    (tagNames ingredientNames : List String) : DB × Recipe :=
  let tres := resolveTagList db owner tagNames
  let ires := resolveIngredientList tres.1 owner ingredientNames
  let r : Recipe :=
    { id := ires.1.nextRecipeId, user := owner, title := title,
      description := description, timeMinutes := timeMinutes, price := price,
      link := link, tags := tres.2, ingredients := ires.2 }
  ({ ires.1 with
      recipes := ires.1.recipes ++ [r],
      nextRecipeId := ires.1.nextRecipeId + 1 },
   r)

/-- Modelled from the spec: the missing recipe delete view (spec section
4.3): only operable if `recipe.owner == owner`, else fails with
`notFound`; deletes the recipe row and its relation links, never the tag
or ingredient rows. -/
def deleteRecipe (db : DB) (rid owner : Nat) : DB × Except Err Unit :=
  match db.recipes.find? (recipeKey rid owner) with
  | none => (db, Except.error Err.notFound)
  | some _ =>
    ({ db with recipes := db.recipes.filter (fun r => !(r.id == rid)) },
     Except.ok ())

/-- Modelled from the spec: owner-scoped tag listing (spec section 4.4). -/
def listTags (db : DB) (owner : Nat) : List Tag :=
  db.tags.filter (fun t => t.user == owner)

/-- Modelled from the spec: the standalone tag update operation exercised
by the repository's tag API tests (the spec's section 4.4 lists only tag
reads; the mutation endpoint itself is in the missing recipe views).
Owner-scoped lookup as in `getRecipe`, then the name is replaced. -/
def updateTag (db : DB) (tid owner : Nat) (newName : String) :
    DB × Except Err Tag :=
  match db.tags.find? (tagIdKey tid owner) with
  | none => (db, Except.error Err.notFound)
  | some t =>
    let t' := { t with name := newName }
    ({ db with tags := db.tags.map (fun x => if x.id == tid then t' else x) },
     Except.ok t')

/-- Modelled from the spec: the standalone tag delete operation exercised
by the repository's tag API tests (missing from the spec's operation list
and from `src`).  Owner-scoped lookup, then the row is removed. -/
def deleteTag (db : DB) (tid owner : Nat) : DB × Except Err Unit :=
  match db.tags.find? (tagIdKey tid owner) with
  | none => (db, Except.error Err.notFound)
  | some _ =>
    ({ db with tags := db.tags.filter (fun t => !(t.id == tid)) },
     Except.ok ())

/-- Modelled from the spec: stand-in for the external framework's one-way
password hasher (the user model's credential store, in the missing
`core/models.py`, delegates hashing to the framework).  Any concrete
function of the plaintext serves the model; operations below depend on the
plaintext only through this function. -/
def hashString (s : String) : Nat :=
  s.data.foldl (fun h c => (h * 131 + c.toNat) % 1000000007) 7

/-- A stored credential is only ever a hash, never plaintext: the type has
no constructor carrying the original string. -/
inductive Credential where
  | hashed : Nat → Credential
deriving DecidableEq, Repr

/-- A User row: id, normalized unique email, hashed credential, display
name, staff/superuser flags. -/
structure UserRec where
  id : Nat
  email : String
  credential : Credential
  name : String
  isStaff : Bool
  isSuperuser : Bool
deriving DecidableEq, Repr

/-- The user table plus fresh-id counter. -/
structure UserDB where
  users : List UserRec
  nextUserId : Nat
deriving DecidableEq, Repr

/-- Split a character list at its FIRST `@`, returning the parts before
and after it, or `none` when no `@` occurs. -/
def splitAtFirstAt : List Char → Option (List Char × List Char)
  | [] => none
  | c :: cs =>
    if c = '@' then some ([], cs)
    else
      match splitAtFirstAt cs with
      | some (pre, post) => some (c :: pre, post)
      | none => none

/-- Modelled from the spec: email normalization in the missing user
manager (spec section 4.1): split on the LAST `@`, lower-case only the
domain segment, leave local-part casing untouched; an email without `@`
is left unchanged.  Implemented by splitting the reversed character list
at its first `@`. -/
def normalize_email (e : String) : String :=
  match splitAtFirstAt e.data.reverse with
  | some (rdom, rloc) =>
    String.mk (rloc.reverse ++ '@' :: (rdom.reverse.map Char.toLower))
  | none => e

/-- Replace a user's credential with the hash of `p` (the framework's
`set_password`, an external collaborator: only the hash is stored). -/
def set_password (u : UserRec) (p : String) : UserRec :=
  { u with credential := Credential.hashed (hashString p) }

/-- Check a plaintext credential against the stored hash (the framework's
`check_password`). -/
def check_password (u : UserRec) (p : String) : Bool :=
  u.credential == Credential.hashed (hashString p)

/-- Modelled from the spec: the missing user manager's `create_user`
(spec section 4.1): fails on an empty email with a validation rejection
and commits nothing; otherwise persists a new user with the normalized
email and the hashed credential only. -/
def create_user (db : UserDB) (email password name : String) :
    UserDB × Except Err UserRec :=
  if email = "" then (db, Except.error Err.validationError)
  else
    let u : UserRec :=
      { id := db.nextUserId, email := normalize_email email,
        credential := Credential.hashed (hashString password),
        name := name, isStaff := false, isSuperuser := false }
    ({ users := db.users ++ [u], nextUserId := db.nextUserId + 1 },
     Except.ok u)

/-- The user serializer's readable representation, from
`src/app/user/serializers.py`: `fields = ['email', 'password', 'name']`
with `password` marked `write_only`, so the returned representation holds
exactly the `email` and `name` fields. -/
def user_to_representation (u : UserRec) : List (String × String) :=
  [("email", u.email), ("name", u.name)]

/-- A user profile-update payload; `none` means the key is absent. -/
structure UserPayload where
  email : Option String
  name : Option String
  password : Option String
deriving DecidableEq, Repr

/-- The user serializer's `update` from `src/app/user/serializers.py`:
pop `password` from the validated data, apply the remaining fields, then
re-hash and store the new credential only when a non-empty password was
supplied (`if password:`). -/
def userSerializerUpdate (u : UserRec) (vd : UserPayload) : UserRec :=
  let u1 := { u with email := vd.email.getD u.email, name := vd.name.getD u.name }
  match vd.password with
  | some p => if p = "" then u1 else set_password u1 p
  | none => u1

/-- True when a user row with exactly this stored email exists. -/
def userEmailExists (db : UserDB) (e : String) : Bool :=
  db.users.any (fun u => u.email == e)

/-- The user-creation endpoint: `src/app/user/serializers.py` configures
`password` with `min_length: 5`, so the serializer rejects a shorter
credential with a validation error before anything is written; otherwise
it delegates to `create_user`. -/
def user_create_endpoint (db : UserDB) (email password name : String) :
    UserDB × Except Err UserRec :=
  if password.length < 5 then (db, Except.error Err.validationError)
  else create_user db email password name

/-- The first owned tag row matching a name, if any, projected to its id:
the row a descriptor with that name resolves to. -/
def firstOwnedTagId (db : DB) (owner : Nat) (n : String) : Option Nat :=
  (db.tags.find? (tagKey owner n)).map Tag.id

/-! ### Concrete fixtures mirroring the repository's test data -/

/-- A tag owned by user 1, as in the tag API tests. -/
def exTag1 : Tag := ⟨1, 1, "Indian"⟩

/-- A recipe owned by user 1 carrying tag 1 and ingredient 1. -/
def exRecipe1 : Recipe := ⟨1, 1, "Steak", "desc", 5, 350, "link", [1], [1]⟩

/-- A recipe owned by a different user 2. -/
def exRecipe2 : Recipe := ⟨2, 2, "Pizza", "desc", 10, 500, "link", [2], []⟩

/-- A two-user database: each user owns an `Indian` tag (distinct rows
with the same name), user 1 also owns ingredient `Salt`. -/
def exDB : DB :=
  ⟨[exTag1, ⟨2, 2, "Indian"⟩], [⟨1, 1, "Salt"⟩], [exRecipe1, exRecipe2], 3, 2, 3⟩

/-- A scalar-only partial payload renaming the recipe's title. -/
def exPayload : RecipePayload :=
  ⟨some "New title", none, none, none, none, none, none, none⟩

/-- A payload whose only key is `tags: []`. -/
def exPayloadClear : RecipePayload :=
  ⟨none, none, none, none, none, none, some [], none⟩

/-- `exDB` after renaming recipe 1's title through `exPayload`. -/
def exRecipe1Upd : Recipe := ⟨1, 1, "New title", "desc", 5, 350, "link", [1], [1]⟩

/-- The database state matching `exRecipe1Upd`. -/
def exDBUpd : DB :=
  ⟨[exTag1, ⟨2, 2, "Indian"⟩], [⟨1, 1, "Salt"⟩], [exRecipe1Upd, exRecipe2], 3, 2, 3⟩

/-- Recipe 1 after a `tags: []` update: associations cleared. -/
def exRecipe1Cleared : Recipe := ⟨1, 1, "Steak", "desc", 5, 350, "link", [], [1]⟩

/-- The database state matching `exRecipe1Cleared`: tag rows intact. -/
def exDBCleared : DB :=
  ⟨[exTag1, ⟨2, 2, "Indian"⟩], [⟨1, 1, "Salt"⟩], [exRecipe1Cleared, exRecipe2], 3, 2, 3⟩

/-- A payload whose only key is `ingredients: []`. -/
def exPayloadClearIng : RecipePayload :=
  ⟨none, none, none, none, none, none, none, some []⟩

/-- Recipe 1 after an `ingredients: []` update: associations cleared,
tags untouched. -/
def exRecipe1IngCleared : Recipe := ⟨1, 1, "Steak", "desc", 5, 350, "link", [1], []⟩

/-- The database state matching `exRecipe1IngCleared`: ingredient rows
intact. -/
def exDBIngCleared : DB :=
  ⟨[exTag1, ⟨2, 2, "Indian"⟩], [⟨1, 1, "Salt"⟩], [exRecipe1IngCleared, exRecipe2],
   3, 2, 3⟩

/-- `exDB` after user 1 resolves `["Indian", "Bangla", "Bangla"]`: the
existing owned `Indian` row is reused and a single `Bangla` row is
created. -/
def exDB3 : DB :=
  ⟨[exTag1, ⟨2, 2, "Indian"⟩, ⟨3, 1, "Bangla"⟩], [⟨1, 1, "Salt"⟩],
   [exRecipe1, exRecipe2], 4, 2, 3⟩

/-! ### Helper lemmas about tag/ingredient resolution -/

lemma resolveTag_recipes (db : DB) (owner : Nat) (n : String) :
    (resolveTag db owner n).1.recipes = db.recipes := by
  unfold resolveTag
  cases db.tags.find? (tagKey owner n) <;> rfl

lemma resolveTag_ingredients (db : DB) (owner : Nat) (n : String) :
    (resolveTag db owner n).1.ingredients = db.ingredients := by
  unfold resolveTag
  cases db.tags.find? (tagKey owner n) <;> rfl

lemma resolveTagList_recipes (db : DB) (owner : Nat) (ns : List String) :
    (resolveTagList db owner ns).1.recipes = db.recipes := by
  induction ns generalizing db with
  | nil => rfl
  | cons n ns ih =>
    show (resolveTagList (resolveTag db owner n).1 owner ns).1.recipes = _
    rw [ih, resolveTag_recipes]

lemma resolveIngredient_recipes (db : DB) (owner : Nat) (n : String) :
    (resolveIngredient db owner n).1.recipes = db.recipes := by
  unfold resolveIngredient
  cases db.ingredients.find? (ingredientKey owner n) <;> rfl

lemma resolveIngredient_tags (db : DB) (owner : Nat) (n : String) :
    (resolveIngredient db owner n).1.tags = db.tags := by
  unfold resolveIngredient
  cases db.ingredients.find? (ingredientKey owner n) <;> rfl

lemma resolveIngredientList_recipes (db : DB) (owner : Nat) (ns : List String) :
    (resolveIngredientList db owner ns).1.recipes = db.recipes := by
  induction ns generalizing db with
  | nil => rfl
  | cons n ns ih =>
    show (resolveIngredientList (resolveIngredient db owner n).1 owner ns).1.recipes = _
    rw [ih, resolveIngredient_recipes]

lemma resolveIngredientList_tags (db : DB) (owner : Nat) (ns : List String) :
    (resolveIngredientList db owner ns).1.tags = db.tags := by
  induction ns generalizing db with
  | nil => rfl
  | cons n ns ih =>
    show (resolveIngredientList (resolveIngredient db owner n).1 owner ns).1.tags = _
    rw [ih, resolveIngredient_tags]

/-- After resolving one tag descriptor, a row with exactly that name and
owner is the first match in the resulting table and carries the returned
id. -/
lemma resolveTag_found (db : DB) (owner : Nat) (n : String) :
    ∃ t : Tag, (resolveTag db owner n).1.tags.find? (tagKey owner n) = some t ∧
      t.id = (resolveTag db owner n).2 ∧ t.user = owner ∧ t.name = n := by
  unfold resolveTag
  cases h : db.tags.find? (tagKey owner n) with
  | some t =>
    refine ⟨t, h, rfl, ?_, ?_⟩
    · have := List.find?_some h
      simp [tagKey] at this
      exact this.1
    · have := List.find?_some h
      simp [tagKey] at this
      exact this.2
  | none =>
    refine ⟨⟨db.nextTagId, owner, n⟩, ?_, rfl, rfl, rfl⟩
    show (db.tags ++ [(⟨db.nextTagId, owner, n⟩ : Tag)]).find? (tagKey owner n) = _
    rw [List.find?_append, h]
    simp [tagKey]

/-- Resolving a descriptor never disturbs an earlier first match of any
tag-table query: rows are only appended. -/
lemma resolveTag_find_preserved (db : DB) (owner : Nat) (m : String)
    (q : Tag → Bool) (t : Tag) (h : db.tags.find? q = some t) :
    (resolveTag db owner m).1.tags.find? q = some t := by
  unfold resolveTag
  cases db.tags.find? (tagKey owner m) with
  | some _ => exact h
  | none =>
    show (db.tags ++ [(⟨db.nextTagId, owner, m⟩ : Tag)]).find? q = some t
    rw [List.find?_append, h]
    rfl

lemma resolveTagList_find_preserved (db : DB) (owner : Nat) (ns : List String)
    (q : Tag → Bool) (t : Tag) (h : db.tags.find? q = some t) :
    (resolveTagList db owner ns).1.tags.find? q = some t := by
  induction ns generalizing db with
  | nil => exact h
  | cons n ns ih =>
    exact ih (resolveTag db owner n).1 (resolveTag_find_preserved db owner n q t h)

/-- The resolved id list, position by position, is the id of the first
owned row with the corresponding name in the final table: equal names in
one payload therefore resolve to the same row. -/
lemma resolveTagList_ids (owner : Nat) (ns : List String) (db : DB) :
    (resolveTagList db owner ns).2.map some =
      ns.map (fun n => firstOwnedTagId (resolveTagList db owner ns).1 owner n) := by
  induction ns generalizing db with
  | nil => rfl
  | cons n ns ih =>
    obtain ⟨t, hfind, hid, _, _⟩ := resolveTag_found db owner n
    have hkept := resolveTagList_find_preserved (resolveTag db owner n).1 owner ns
      (tagKey owner n) t hfind
    simp only [resolveTagList, List.map_cons]
    rw [ih (resolveTag db owner n).1]
    rw [show firstOwnedTagId (resolveTagList (resolveTag db owner n).1 owner ns).1 owner n
        = some t.id from by rw [firstOwnedTagId, hkept]; rfl, hid]

/-- Every name in the payload has, after resolution, a first owned match
in the final tag table with exactly that name and owner. -/
lemma resolveTagList_owned (db : DB) (owner : Nat) (ns : List String) :
    ∀ n ∈ ns, ∃ t : Tag,
      (resolveTagList db owner ns).1.tags.find? (tagKey owner n) = some t ∧
      t ∈ (resolveTagList db owner ns).1.tags ∧ t.user = owner ∧ t.name = n := by
  induction ns generalizing db with
  | nil => intro n hn; cases hn
  | cons m ns ih =>
    intro n hn
    rcases List.mem_cons.mp hn with hn | hn
    · subst hn
      obtain ⟨t, hfind, _, hu, hm⟩ := resolveTag_found db owner n
      have hkept := resolveTagList_find_preserved (resolveTag db owner n).1 owner ns
        (tagKey owner n) t hfind
      exact ⟨t, hkept, List.mem_of_find?_eq_some hkept, hu, hm⟩
    · exact ih (resolveTag db owner m).1 n hn

/-- Resolution only appends rows, all owned by the acting owner: rows of
other owners are untouched and never returned. -/
lemma resolveTagList_append (db : DB) (owner : Nat) (ns : List String) :
    ∃ extra : List Tag, (resolveTagList db owner ns).1.tags = db.tags ++ extra ∧
      ∀ t ∈ extra, t.user = owner := by
  induction ns generalizing db with
  | nil =>
    exact ⟨[], by simp [resolveTagList], fun t ht => absurd ht (List.not_mem_nil t)⟩
  | cons n ns ih =>
    obtain ⟨extra, hex, hown⟩ := ih (resolveTag db owner n).1
    show ∃ e, (resolveTagList (resolveTag db owner n).1 owner ns).1.tags = _ ∧ _
    rw [hex]
    unfold resolveTag
    cases db.tags.find? (tagKey owner n) with
    | some t => exact ⟨extra, rfl, hown⟩
    | none =>
      refine ⟨⟨db.nextTagId, owner, n⟩ :: extra, by simp, ?_⟩
      intro t ht
      rcases List.mem_cons.mp ht with ht | ht
      · rw [ht]
      · exact hown t ht

/-- From a positional equation `ids.map some = ns.map f`, equal entries of
`ns` force equal entries of `ids`. -/
lemma map_some_positional {α β : Type} (ids : List α) (ns : List β)
    (f : β → Option α) (hm : ids.map some = ns.map f) :
    ∀ (i j : Nat) (hi : i < ids.length) (hj : j < ids.length)
      (hi2 : i < ns.length) (hj2 : j < ns.length),
      ns.get ⟨i, hi2⟩ = ns.get ⟨j, hj2⟩ →
      ids.get ⟨i, hi⟩ = ids.get ⟨j, hj⟩ := by
  have hval : ∀ (k : Nat) (hk : k < ids.length) (hk2 : k < ns.length),
      some (ids.get ⟨k, hk⟩) = f (ns.get ⟨k, hk2⟩) := by
    intro k hk hk2
    have hg := congrArg (fun l => l[k]?) hm
    simp only [List.getElem?_map] at hg
    rw [List.getElem?_eq_getElem hk, List.getElem?_eq_getElem hk2] at hg
    simpa using hg
  intro i j hi hj hi2 hj2 hnames
  have h1 := hval i hi hi2
  have h2 := hval j hj hj2
  rw [hnames, ← h2] at h1
  exact Option.some.inj h1

/-! ### Helper lemmas about ownership-scoped recipe writes -/

/-- Replacing, in place, every row with the matched id by a new row that
still matches the ownership-scoped key makes that new row the first
match. -/
lemma find?_map_replace (l : List Recipe) (rid owner : Nat) (r' r0 : Recipe)
    (h0 : l.find? (recipeKey rid owner) = some r0)
    (hid : r'.id = rid) (hu : r'.user = owner) :
    (l.map (fun x => if x.id == rid then r' else x)).find? (recipeKey rid owner) =
      some r' := by
  induction l with
  | nil => simp at h0
  | cons a l ih =>
    by_cases ha : a.id = rid
    · have hhead : (if a.id == rid then r' else a) = r' := by simp [ha]
      simp only [List.map_cons, hhead]
      exact List.find?_cons_of_pos _ (by simp [recipeKey, hid, hu])
    · have hpred : ¬ recipeKey rid owner a = true := by simp [recipeKey, ha]
      rw [List.find?_cons_of_neg _ hpred] at h0
      have hhead : (if a.id == rid then r' else a) = a := by simp [ha]
      simp only [List.map_cons, hhead]
      rw [List.find?_cons_of_neg _ hpred]
      exact ih h0

lemma resolveTagList_ingredients (db : DB) (owner : Nat) (ns : List String) :
    (resolveTagList db owner ns).1.ingredients = db.ingredients := by
  induction ns generalizing db with
  | nil => rfl
  | cons n ns ih =>
    show (resolveTagList (resolveTag db owner n).1 owner ns).1.ingredients = _
    rw [ih, resolveTag_ingredients]

lemma relTags_recipes (db : DB) (owner : Nat) (r : Recipe)
    (o : Option (List String)) : (relTags db owner r o).1.recipes = db.recipes := by
  cases o with
  | none => rfl
  | some names => exact resolveTagList_recipes db owner names

lemma relTags_ingredients (db : DB) (owner : Nat) (r : Recipe)
    (o : Option (List String)) :
    (relTags db owner r o).1.ingredients = db.ingredients := by
  cases o with
  | none => rfl
  | some names => exact resolveTagList_ingredients db owner names

/-- The database produced by the tag half of an update does not depend on
the found row. -/
lemma relTags_fst (db : DB) (owner : Nat) (r : Recipe)
    (o : Option (List String)) : (relTags db owner r o).1 = tagPhaseDB db owner o := by
  cases o with
  | none => rfl
  | some names => rfl

lemma relIngredients_recipes (db : DB) (owner : Nat) (r : Recipe)
    (o : Option (List String)) :
    (relIngredients db owner r o).1.recipes = db.recipes := by
  cases o with
  | none => rfl
  | some names => exact resolveIngredientList_recipes db owner names

lemma relIngredients_tags (db : DB) (owner : Nat) (r : Recipe)
    (o : Option (List String)) :
    (relIngredients db owner r o).1.tags = db.tags := by
  cases o with
  | none => rfl
  | some names => exact resolveIngredientList_tags db owner names

lemma updateResolvedDB_recipes (db : DB) (owner : Nat) (p : RecipePayload)
    (r : Recipe) : (updateResolvedDB db owner p r).recipes = db.recipes := by
  rw [updateResolvedDB, relIngredients_recipes, relTags_recipes]

/-- The updated row keeps the found row's id and owner untouched. -/
lemma updatedRow_id_user (db : DB) (owner : Nat) (p : RecipePayload)
    (r : Recipe) :
    (updatedRow db owner p r).id = r.id ∧ (updatedRow db owner p r).user = r.user :=
  ⟨rfl, rfl⟩

/-- A successful ownership-scoped recipe update returns a row that keeps
the requested id and the acting owner, and that row is what a post-update
ownership-scoped read returns. -/
lemma updateRecipe_ok (db : DB) (rid owner : Nat) (p : RecipePayload)
    (db' : DB) (r' : Recipe)
    (h : updateRecipe db rid owner p = (db', Except.ok r')) :
    r'.id = rid ∧ r'.user = owner ∧ getRecipe db' rid owner = some r' := by
  unfold updateRecipe at h
  cases hf : db.recipes.find? (recipeKey rid owner) with
  | none =>
    rw [hf] at h
    exact absurd (congrArg Prod.snd h) (by simp)
  | some r =>
    rw [hf] at h
    have hrk := List.find?_some hf
    simp only [recipeKey, Bool.and_eq_true, beq_iff_eq] at hrk
    obtain ⟨hrid, hruser⟩ := hrk
    obtain ⟨hdb, hok⟩ := Prod.mk.injEq .. ▸ h
    simp only [Except.ok.injEq] at hok
    have hid : r'.id = rid := by rw [← hok]; exact hrid
    have huser : r'.user = owner := by rw [← hok]; exact hruser
    refine ⟨hid, huser, ?_⟩
    rw [getRecipe, ← hdb]
    show ((updateResolvedDB db owner p r).recipes.map
        (fun x => if x.id == rid then updatedRow db owner p r else x)).find?
        (recipeKey rid owner) = some r'
    rw [updateResolvedDB_recipes, hok]
    exact find?_map_replace db.recipes rid owner r' r hf hid huser

/-! ### Helper lemmas about email normalization -/

lemma splitAtFirstAt_of_not_mem (xs ys : List Char) (h : '@' ∉ xs) :
    splitAtFirstAt (xs ++ '@' :: ys) = some (xs, ys) := by
  induction xs with
  | nil => simp [splitAtFirstAt]
  | cons c cs ih =>
    have hc : ¬ c = '@' := fun hc => h (by simp [hc])
    have hcs : '@' ∉ cs := fun hm => h (List.mem_cons_of_mem _ hm)
    simp [splitAtFirstAt, hc, ih hcs]

lemma normalize_email_split (loc dom : List Char) (h : '@' ∉ dom) :
    normalize_email (String.mk (loc ++ '@' :: dom)) =
      String.mk (loc ++ '@' :: dom.map Char.toLower) := by
  have hd : '@' ∉ dom.reverse := by simpa using h
  have hrev : (loc ++ '@' :: dom).reverse = dom.reverse ++ '@' :: loc.reverse := by
    simp [List.reverse_append]
  unfold normalize_email
  rw [show (String.mk (loc ++ '@' :: dom)).data = loc ++ '@' :: dom from rfl,
      hrev, splitAtFirstAt_of_not_mem _ _ hd]
  simp

/-! ### Claim theorems on the recipe model -/

/-- C1: deleting a recipe as an authenticated `owner2` who is not its
owner fails with the same `notFound` used for nonexistent rows, the
database is returned unchanged, and the recipe remains retrievable by its
true owner afterwards. -/
theorem spec_c1 (db : DB) (rid owner2 : Nat) (r : Recipe)
    (hr : getRecipe db rid r.user = some r)
    (huni : ∀ x ∈ db.recipes, x.id = rid → x.user = r.user)
    (hne : owner2 ≠ r.user) :
    deleteRecipe db rid owner2 = (db, Except.error Err.notFound) ∧
    getRecipe (deleteRecipe db rid owner2).1 rid r.user = some r := by
  have hnone : db.recipes.find? (recipeKey rid owner2) = none := by
    rw [List.find?_eq_none]
    intro x hx hkey
    simp only [recipeKey, Bool.and_eq_true, beq_iff_eq] at hkey
    exact hne (hkey.2 ▸ (huni x hx hkey.1))
  have hdel : deleteRecipe db rid owner2 = (db, Except.error Err.notFound) := by
    unfold deleteRecipe
    rw [hnone]
  exact ⟨hdel, by rw [hdel]; exact hr⟩

/-- C2: a recipe update ignores any `user` value in the payload (the
result is the same as without it), a successful update returns a row
whose owner is still the acting owner, and a post-update read by that
owner returns exactly the updated row. -/
theorem spec_c2 (db : DB) (rid owner : Nat) (p : RecipePayload)
    (u : Option Nat) (db' : DB) (r' : Recipe)
    (h : updateRecipe db rid owner p = (db', Except.ok r')) :
    updateRecipe db rid owner { p with user := u } = (db', Except.ok r') ∧
    r'.user = owner ∧ getRecipe db' rid owner = some r' := by
  have hirr : updateRecipe db rid owner { p with user := u } =
      updateRecipe db rid owner p := by
    cases p
    rfl
  obtain ⟨-, h2, h3⟩ := updateRecipe_ok db rid owner p db' r' h
  exact ⟨hirr.trans h, h2, h3⟩

/-- C3: resolving a payload's tag names against an owner is get-or-create
by exact name and owner — each returned id is the id of the first owned
row with that name in the final table, so repeated names in one payload
resolve to the same row; every resolved row belongs to the acting owner
with the exact requested name; resolution only appends rows owned by the
acting owner, leaving other owners' same-named rows distinct and
unshared; an existing owned row is reused without duplication and a
missing one is created under that owner. -/
theorem spec_c3 (db : DB) (owner : Nat) (ns : List String) (db' : DB)
    (ids : List Nat) (h : resolveTagList db owner ns = (db', ids)) :
    ids.map some = ns.map (fun n => firstOwnedTagId db' owner n) ∧
    (∀ (i j : Nat) (hi : i < ids.length) (hj : j < ids.length)
      (hi2 : i < ns.length) (hj2 : j < ns.length),
      ns.get ⟨i, hi2⟩ = ns.get ⟨j, hj2⟩ →
      ids.get ⟨i, hi⟩ = ids.get ⟨j, hj⟩) ∧
    (∀ n ∈ ns, ∃ t : Tag, db'.tags.find? (tagKey owner n) = some t ∧
      t ∈ db'.tags ∧ t.user = owner ∧ t.name = n) ∧
    (∃ extra : List Tag, db'.tags = db.tags ++ extra ∧
      ∀ t ∈ extra, t.user = owner) ∧
    (∀ (n : String) (t : Tag), db.tags.find? (tagKey owner n) = some t →
      resolveTag db owner n = (db, t.id)) ∧
    (∀ n : String, db.tags.find? (tagKey owner n) = none →
      resolveTag db owner n =
        ({ db with
            tags := db.tags ++ [⟨db.nextTagId, owner, n⟩],
            nextTagId := db.nextTagId + 1 }, db.nextTagId)) := by
  have hdb : db' = (resolveTagList db owner ns).1 := by rw [h]
  have hids : ids = (resolveTagList db owner ns).2 := by rw [h]
  subst hdb
  subst hids
  have hmap := resolveTagList_ids owner ns db
  refine ⟨hmap, map_some_positional _ _ _ hmap, resolveTagList_owned db owner ns,
    resolveTagList_append db owner ns, ?_, ?_⟩
  · intro n t ht
    unfold resolveTag
    rw [ht]
  · intro n hn
    unfold resolveTag
    rw [hn]

/-- C4: on any successful update, the updated row is what a post-update
read returns; whenever the payload contains the `tags` key, the recipe's
tag set is replaced with exactly the resolved id list of the payload's
names (previously attached tags not re-listed are gone), and `tags: []`
clears all associations while the tag table itself is unchanged; the
same holds independently for the `ingredients` key — whether or not the
payload also carries `tags` — with `ingredients: []` clearing the
associations while the ingredient table is unchanged. -/
theorem spec_c4 (db : DB) (rid owner : Nat) (p : RecipePayload)
    (db' : DB) (r' : Recipe)
    (h : updateRecipe db rid owner p = (db', Except.ok r')) :
    getRecipe db' rid owner = some r' ∧
    (∀ names : List String, p.tags = some names →
      r'.tags = (resolveTagList db owner names).2 ∧
      (names = [] → r'.tags = [] ∧ db'.tags = db.tags)) ∧
    (∀ inames : List String, p.ingredients = some inames →
      r'.ingredients =
        (resolveIngredientList (tagPhaseDB db owner p.tags) owner inames).2 ∧
      (inames = [] → r'.ingredients = [] ∧ db'.ingredients = db.ingredients)) := by
  obtain ⟨-, -, hget⟩ := updateRecipe_ok db rid owner p db' r' h
  unfold updateRecipe at h
  cases hf : db.recipes.find? (recipeKey rid owner) with
  | none =>
    rw [hf] at h
    exact absurd (congrArg Prod.snd h) (by simp)
  | some r =>
    rw [hf] at h
    obtain ⟨hdb, hok⟩ := Prod.mk.injEq .. ▸ h
    simp only [Except.ok.injEq] at hok
    refine ⟨hget, ?_, ?_⟩
    · intro names hp
      have htags : r'.tags = (resolveTagList db owner names).2 := by
        rw [← hok]
        show (relTags db owner r p.tags).2 = _
        rw [hp]
        rfl
      refine ⟨htags, ?_⟩
      intro hnil
      subst hnil
      refine ⟨htags, ?_⟩
      rw [← hdb]
      show (updateResolvedDB db owner p r).tags = db.tags
      rw [updateResolvedDB, relIngredients_tags]
      show (relTags db owner r p.tags).1.tags = db.tags
      rw [hp]
      rfl
    · intro inames hpi
      have hing : r'.ingredients =
          (resolveIngredientList (tagPhaseDB db owner p.tags) owner inames).2 := by
        rw [← hok]
        show (relIngredients (relTags db owner r p.tags).1 owner r p.ingredients).2 = _
        rw [hpi]
        show (resolveIngredientList (relTags db owner r p.tags).1 owner inames).2 = _
        rw [relTags_fst]
      refine ⟨hing, ?_⟩
      intro hnil
      subst hnil
      refine ⟨by rw [hing]; rfl, ?_⟩
      rw [← hdb]
      show (updateResolvedDB db owner p r).ingredients = db.ingredients
      rw [updateResolvedDB]
      show (relIngredients (relTags db owner r p.tags).1 owner r
        p.ingredients).1.ingredients = db.ingredients
      rw [hpi]
      show (resolveIngredientList (relTags db owner r p.tags).1 owner
        []).1.ingredients = db.ingredients
      exact relTags_ingredients db owner r p.tags

/-- C5: with a non-empty tag-id filter, the listed recipes are exactly
the stored recipes owned by the acting owner whose tag set meets the
given ids (union semantics over the ids), further restricted — when an
ingredient filter is also given — to those whose ingredient set meets it
as well; recipes of other owners never appear. -/
theorem spec_c5 (db : DB) (owner : Nat) (tagIds ingIds : List Nat)
    (r : Recipe) (h : tagIds ≠ []) :
    r ∈ listRecipes db owner tagIds ingIds ↔
      (r ∈ db.recipes ∧ r.user = owner ∧ (∃ t ∈ r.tags, t ∈ tagIds) ∧
       (ingIds = [] ∨ ∃ i ∈ r.ingredients, i ∈ ingIds)) := by
  have hne : tagIds.isEmpty = false := by
    cases tagIds with
    | nil => exact absurd rfl h
    | cons a l => rfl
  unfold listRecipes
  rw [List.mem_filter]
  cases hie : ingIds.isEmpty with
  | true =>
    have : ingIds = [] := by
      cases ingIds with
      | nil => rfl
      | cons a l => simp at hie
    subst this
    simp [hne, List.any_eq_true, and_assoc]
  | false =>
    have : ingIds ≠ [] := by
      intro hx
      subst hx
      simp at hie
    simp [hne, hie, List.any_eq_true, and_assoc, this]

/-- C10: a tag retrievable by its owner through the owner-scoped id
lookup can be renamed in place — the update succeeds and the renamed row
(same id, same owner) is in the owner's tag list — and deleted outright —
the delete succeeds and no tag with that id remains in the owner's tag
list. -/
theorem spec_c10 (db : DB) (tid owner : Nat) (n : String) (t0 : Tag)
    (h : db.tags.find? (tagIdKey tid owner) = some t0) :
    (updateTag db tid owner n).2 = Except.ok { t0 with name := n } ∧
    { t0 with name := n } ∈ listTags (updateTag db tid owner n).1 owner ∧
    (deleteTag db tid owner).2 = Except.ok () ∧
    ∀ x ∈ listTags (deleteTag db tid owner).1 owner, x.id ≠ tid := by
  have hk := List.find?_some h
  simp only [tagIdKey, Bool.and_eq_true, beq_iff_eq] at hk
  obtain ⟨hid, huser⟩ := hk
  have hmem := List.mem_of_find?_eq_some h
  refine ⟨?_, ?_, ?_, ?_⟩
  · unfold updateTag
    rw [h]
  · unfold updateTag
    rw [h]
    show _ ∈ listTags _ owner
    unfold listTags
    rw [List.mem_filter]
    constructor
    · show _ ∈ db.tags.map _
      exact List.mem_map.mpr ⟨t0, hmem, by simp [hid]⟩
    · simp [huser]
  · unfold deleteTag
    rw [h]
  · intro x hx
    unfold deleteTag at hx
    rw [h] at hx
    unfold listTags at hx
    rw [List.mem_filter] at hx
    have hx1 : x ∈ db.tags.filter (fun t => !(t.id == tid)) := hx.1
    have := (List.mem_filter.mp hx1).2
    simpa using this

/-! ### Witnesses for the recipe-side claims -/

/-- Witness for C1: user 2 cannot delete user 1's recipe; it stays
retrievable by user 1. -/
theorem spec_c1_witness :
    deleteRecipe exDB 1 2 = (exDB, Except.error Err.notFound) ∧
    getRecipe (deleteRecipe exDB 1 2).1 1 exRecipe1.user = some exRecipe1 :=
  spec_c1 exDB 1 2 exRecipe1 (by rfl) (by decide) (by decide)

/-- Witness for C2: a title-only update carrying `user: 2` leaves the
recipe owned by user 1. -/
theorem spec_c2_witness :
    updateRecipe exDB 1 1 { exPayload with user := some 2 } =
      (exDBUpd, Except.ok exRecipe1Upd) ∧
    exRecipe1Upd.user = 1 ∧ getRecipe exDBUpd 1 1 = some exRecipe1Upd :=
  spec_c2 exDB 1 1 exPayload (some 2) exDBUpd exRecipe1Upd (by rfl)

/-- Witness for C3: resolving `["Indian", "Bangla", "Bangla"]` for user 1
reuses the existing owned `Indian` row and resolves both `Bangla`
occurrences to the single created row. -/
theorem spec_c3_witness :
    ([1, 3, 3] : List Nat).map some =
      (["Indian", "Bangla", "Bangla"]).map (fun n => firstOwnedTagId exDB3 1 n) :=
  (spec_c3 exDB 1 ["Indian", "Bangla", "Bangla"] exDB3 [1, 3, 3] (by rfl)).1

/-- Witness for C4: a `tags: []` update clears recipe 1's tag
associations while the tag table is untouched, and an ingredients-only
`ingredients: []` update (no `tags` key at all) clears its ingredient
associations while the ingredient table is untouched. -/
theorem spec_c4_witness :
    (exRecipe1Cleared.tags = ([] : List Nat) ∧ exDBCleared.tags = exDB.tags) ∧
    (exRecipe1IngCleared.ingredients = ([] : List Nat) ∧
      exDBIngCleared.ingredients = exDB.ingredients) :=
  ⟨((spec_c4 exDB 1 1 exPayloadClear exDBCleared exRecipe1Cleared
      (by rfl)).2.1 [] rfl).2 rfl,
   ((spec_c4 exDB 1 1 exPayloadClearIng exDBIngCleared exRecipe1IngCleared
      (by rfl)).2.2 [] rfl).2 rfl⟩

/-- Witness for C5: filtering user 1's recipes by tag ids `[1, 2]` and
ingredient ids `[1]`. -/
theorem spec_c5_witness :
    exRecipe1 ∈ listRecipes exDB 1 [1, 2] [1] ↔
      (exRecipe1 ∈ exDB.recipes ∧ exRecipe1.user = 1 ∧
       (∃ t ∈ exRecipe1.tags, t ∈ ([1, 2] : List Nat)) ∧
       (([1] : List Nat) = [] ∨ ∃ i ∈ exRecipe1.ingredients, i ∈ ([1] : List Nat))) :=
  spec_c5 exDB 1 [1, 2] [1] exRecipe1 (by decide)

/-- Witness for C10: renaming and deleting user 1's tag 1. -/
theorem spec_c10_witness :
    (updateTag exDB 1 1 "New Tag").2 = Except.ok { exTag1 with name := "New Tag" } ∧
    { exTag1 with name := "New Tag" } ∈ listTags (updateTag exDB 1 1 "New Tag").1 1 ∧
    (deleteTag exDB 1 1).2 = Except.ok () ∧
    ∀ x ∈ listTags (deleteTag exDB 1 1).1 1, x.id ≠ 1 :=
  spec_c10 exDB 1 1 "New Tag" exTag1 (by rfl)

/-! ### Claim theorems on the identity/credential model -/

/-- C6: for every credential `p` (and display name), creating a user with
the empty email fails with a validation error and the user table is left
exactly as it was: no user is created. -/
theorem spec_c6 (db : UserDB) (p nm : String) :
    create_user db "" p nm = (db, Except.error Err.validationError) := by
  simp [create_user]

/-- C7: for every email written as local-part ++ `@` ++ domain (the `@`
shown being the last one), normalization lower-cases only the domain
segment and preserves the local part's casing, and `create_user` stores
exactly that normalized email. -/
theorem spec_c7 (loc dom : List Char) (h : '@' ∉ dom) :
    normalize_email (String.mk (loc ++ '@' :: dom)) =
      String.mk (loc ++ '@' :: dom.map Char.toLower) ∧
    ∀ (db : UserDB) (p nm : String) (u : UserRec),
      (create_user db (String.mk (loc ++ '@' :: dom)) p nm).2 = Except.ok u →
      u.email = String.mk (loc ++ '@' :: dom.map Char.toLower) := by
  refine ⟨normalize_email_split loc dom h, ?_⟩
  intro db p nm u hu
  have hne : ¬ String.mk (loc ++ '@' :: dom) = "" := by
    intro hc
    have hdata : loc ++ '@' :: dom = ([] : List Char) := congrArg String.data hc
    simp at hdata
  rw [create_user, if_neg hne] at hu
  simp only [Except.ok.injEq] at hu
  rw [← hu]
  exact normalize_email_split loc dom h

/-- C9: a user-creation request whose credential is shorter than the
minimum length of 5 characters fails with a validation error, commits
nothing (the user table is returned unchanged), and in particular no user
row with the requested email exists afterwards if none existed before. -/
theorem spec_c9 (db : UserDB) (e p nm : String) (h : p.length < 5) :
    user_create_endpoint db e p nm = (db, Except.error Err.validationError) ∧
    (userEmailExists db e = false →
      userEmailExists (user_create_endpoint db e p nm).1 e = false) := by
  have hmain : user_create_endpoint db e p nm =
      (db, Except.error Err.validationError) := by
    simp [user_create_endpoint, h]
  exact ⟨hmain, fun hx => by rw [hmain]; exact hx⟩

/-- C8: on every successful user creation the persisted record stores the
credential only as a hash (and verifies the original), the readable
representation exposes exactly the `email` and `name` fields (never a
`password` field), the representation is independent of the stored
credential, the whole persisted outcome depends on the plaintext only
through its hash, and a profile update supplying a new non-empty
credential again stores only its hash while the representation's fields
stay `email` and `name`. -/
theorem spec_c8 (db db' : UserDB) (e p nm : String) (u : UserRec)
    (h : create_user db e p nm = (db', Except.ok u)) :
    check_password u p = true ∧
    u.credential = Credential.hashed (hashString p) ∧
    (user_to_representation u).map Prod.fst = ["email", "name"] ∧
    (∀ c : Credential,
      user_to_representation { u with credential := c } =
        user_to_representation u) ∧
    (∀ p' : String, hashString p' = hashString p →
      create_user db e p' nm = (db', Except.ok u)) ∧
    (∀ (vd : UserPayload) (q : String), vd.password = some q → q ≠ "" →
      (userSerializerUpdate u vd).credential =
          Credential.hashed (hashString q) ∧
      check_password (userSerializerUpdate u vd) q = true ∧
      (user_to_representation (userSerializerUpdate u vd)).map Prod.fst =
          ["email", "name"]) := by
  by_cases he : e = ""
  · rw [he, create_user, if_pos rfl] at h
    exact absurd (congrArg Prod.snd h) (by simp)
  · rw [create_user, if_neg he] at h
    obtain ⟨hdb, hu⟩ := Prod.mk.injEq .. ▸ h
    simp only [Except.ok.injEq] at hu
    refine ⟨?_, ?_, rfl, fun c => rfl, ?_, ?_⟩
    · rw [← hu]; simp [check_password]
    · rw [← hu]
    · intro p' hp'
      rw [create_user, if_neg he, ← hdb, ← hu, hp']
    · intro vd q hq hqne
      unfold userSerializerUpdate
      rw [hq]
      simp only [if_neg hqne]
      exact ⟨rfl, by simp [check_password, set_password], rfl⟩

/-- Witness for C8: a concrete successful creation, whose stored record
verifies the original credential. -/
theorem spec_c8_witness :
    check_password
      ⟨1, "A@b", Credential.hashed (hashString "testpass123"), "Test",
        false, false⟩ "testpass123" = true :=
  (spec_c8 ⟨[], 1⟩
    ⟨[⟨1, "A@b", Credential.hashed (hashString "testpass123"), "Test",
        false, false⟩], 2⟩
    "A@b" "testpass123" "Test"
    ⟨1, "A@b", Credential.hashed (hashString "testpass123"), "Test",
      false, false⟩
    (by rfl)).1

/-- Witness for C7 at the test vector `Test2@examplE.CoM`: the local part
`Test2` keeps its casing, only the domain is lower-cased. -/
theorem spec_c7_witness :
    normalize_email (String.mk ("Test2".data ++ '@' :: "examplE.CoM".data)) =
      String.mk ("Test2".data ++ '@' :: ("examplE.CoM".data.map Char.toLower)) :=
  (spec_c7 "Test2".data "examplE.CoM".data (by decide)).1

/-- Witness for C9 at the test vector: a 3-character credential is
rejected and the empty user table stays empty. -/
theorem spec_c9_witness :
    user_create_endpoint ⟨[], 1⟩ "test@example.com" "te3" "Test Name" =
      (⟨[], 1⟩, Except.error Err.validationError) :=
  (spec_c9 ⟨[], 1⟩ "test@example.com" "te3" "Test Name" (by decide)).1

end RecipeApp
